import Mathlib

/-!
# Verification of the openclaw-config Lovart runner against its specification

Shallow embedding of the orchestration core in `src/utils/lovart_runner.js`
and the task-queue worker in `src/unnamed/part_000`, together with theorems
settling the frozen claims C1..C10.

Modelling conventions:
* JavaScript numbers that carry counts are modelled as `Option ℚ`
  (`none` = a non-finite number, i.e. `Number.isFinite(x)` is `false`);
  `Math.floor` becomes `Int.floor`, and the float literal `0.7` is modelled
  as the rational `7/10` (for the integer counts involved the double and the
  rational round identically).
* Wall-clock instants are natural numbers; a poll loop is driven by a list
  of per-iteration observations (the values the page/DOM would have returned
  at that iteration), so the scheduling model is explicit.
* The process-wide claim set `claimedCanvasPages` is a `Finset` of page
  identities; mutation is check-and-set exactly as in the source, which is
  single-threaded at the point of mutation.
* File-system and network effects are decided by environment functions
  (`fileExists`, `fetchOk`, ...) supplied per run.
-/

namespace Lovart

/-- One entry of the fixed-size results array of `runLovartBatch`
(`{ ok, filePath?, error? }` in the source; an absent field is `""`). -/
structure ResultSlot where
  ok : Bool
  filePath : String
  error : String
deriving Repr, DecidableEq, Inhabited

/-- `padIndex` (lovart_runner.js line 2964): `String(index).padStart(3, '0')`. -/
def padIndex (index : ℕ) : String :=
  let s := toString index
  String.mk (List.replicate (3 - s.length) '0') ++ s

/-- `resolveMinimumSuccessCount` (lovart_runner.js lines 2967-2972):
`count = Number.isFinite(expectedCount) ? Math.floor(expectedCount) : 0;
if (!count) return 1; return Math.max(1, Math.ceil(count * 0.7))`.
The literal `0.7` is modelled as the rational `7/10`. -/
def resolveMinimumSuccessCount (expectedCount : Option ℚ) : ℕ :=
  let count : ℤ := match expectedCount with
    | some q => ⌊q⌋
    | none => 0
  if count = 0 then 1 else (max 1 ⌈(count : ℚ) * (7 / 10)⌉).toNat

/-- The `expectedTotal` computed in the final report assembly
(lovart_runner.js lines 4685-4687): `Number.isFinite(options.expectedCount)
? Math.max(0, Math.floor(options.expectedCount)) : results.length`. -/
def finalExpectedTotal (expectedCount : Option ℚ) (resultsLength : ℕ) : ℕ :=
  match expectedCount with
  | some q => (max 0 ⌊q⌋).toNat
  | none => resultsLength

/-- The overall-success flag of the final report (lovart_runner.js line 4689):
`ok = expectedTotal > 0 ? successCount >= minSuccessCount : successCount > 0`,
with `minSuccessCount = resolveMinimumSuccessCount(options.expectedCount)`
(line 4149). -/
def finalizeOk (expectedCount : Option ℚ) (results : List ResultSlot) : Bool :=
  let expectedTotal := finalExpectedTotal expectedCount results.length
  let successCount := (results.filter (fun r => r.ok)).length
  if expectedTotal > 0 then
    decide (resolveMinimumSuccessCount expectedCount ≤ successCount)
  else
    decide (0 < successCount)

/-- `resolveEffectiveImageCount` (lovart_runner.js lines 1654-1658):
`base = Math.max(Number(urlCount) || 0, Number(visualCount) || 0);
if (!base) return 0; return base;` — the `_summaryCount` argument is unused. -/
def resolveEffectiveImageCount (urlCount visualCount _summaryCount : ℕ) : ℕ :=
  let base := max urlCount visualCount
  if base = 0 then 0 else base

/-! ## Canvas-page claim set (lovart_runner.js lines 19-40, 330-373)

Pages are identified by naturals; `claimedCanvasPages` is the process-wide
set.  The host runtime is single-threaded at the point of mutation, so the
check-and-set in `claimCanvasPage` is atomic. -/

abbrev CanvasPage := ℕ
abbrev TaskId := ℕ

/-- `claimCanvasPage` (lines 22-31): returns `false` without mutating when
the page is already in the set, otherwise adds it and returns `true`.
(The `page.once('close', ...)` handler it installs is modelled by the
`close` event of `TaskEv` below; the JS `!page` null-guard is dropped since
`CanvasPage` has no null.) -/
def claimCanvasPage (claimed : Finset CanvasPage) (page : CanvasPage) :
    Bool × Finset CanvasPage :=
  if page ∈ claimed then (false, claimed) else (true, insert page claimed)

/-- `unclaimCanvasPage` (lines 33-36). -/
def unclaimCanvasPage (claimed : Finset CanvasPage) (page : CanvasPage) :
    Finset CanvasPage :=
  claimed.erase page

/-- `isCanvasPageClaimed` (lines 38-40). -/
def isCanvasPageClaimed (claimed : Finset CanvasPage) (page : CanvasPage) : Bool :=
  decide (page ∈ claimed)

/-- `waitForCanvasPage` (lines 330-373): scans candidate pages (the current
page, the context's pages at each poll, and new-page events, in the order
the loop observes them).  `allowedBase` collects the non-claim-set parts of
`isAllowed` (`isCanvasPage`, `isRelatedCanvasPage`, the ignored-project-id
filter); the claim-set membership check of `isAllowed` and the final
`claimCanvasPage` call are explicit.  Returns the claimed page (if any)
together with the updated claim set. -/
def waitForCanvasPage (allowedBase : CanvasPage → Bool) :
    Finset CanvasPage → List CanvasPage → Option CanvasPage × Finset CanvasPage
  | claimed, [] => (none, claimed)
  | claimed, page :: rest =>
    if allowedBase page && !(isCanvasPageClaimed claimed page) then
      match claimCanvasPage claimed page with
      | (true, claimed') => (some page, claimed')
      | (false, claimed') => waitForCanvasPage allowedBase claimed' rest
    else
      waitForCanvasPage allowedBase claimed rest

/-- Cross-task state: the process-wide claim set `claimedCanvasPages`;
per task, `held` — the pages the task successfully claimed and has not yet
released (the exclusivity the task relies on) — and `touched` — the pages
the task's `finally` cleanup will unclaim, i.e. its
`ownedPages ∪ {page, originPage}` (lines 4736-4741). -/
structure ClaimSysState where
  claimed : Finset CanvasPage
  held : TaskId → Finset CanvasPage
  touched : TaskId → Finset CanvasPage

/-- Events touching the claim set:
* `acquire` — the task obtains a page through `waitForCanvasPage`
  (claim-checked, lines 330-373);
* `adoptExisting` — the task obtains a page through `pickExistingPage`,
  whose last-resort fallback (line 327: `... || pages[0]`) can hand it a
  canvas page already claimed by another task, after which the runner calls
  `claimCanvasPage(canvasPage)` ignoring the result (e.g. lines 3886, 3896,
  3905, 3934) and proceeds on the page either way;
* `finish` — the task's `finally` unclaims every page it touched
  (line 4741: `pagesToRelease.forEach(p => unclaimCanvasPage(p))`),
  whether or not the claim was its own;
* `close` — the page's `close` handler removes it from the set (line 26)
  and the dead page drops out of every task's page sets. -/
inductive TaskEv where
  | acquire (t : TaskId) (allowedBase : CanvasPage → Bool) (candidates : List CanvasPage)
  | adoptExisting (t : TaskId) (page : CanvasPage)
  | finish (t : TaskId)
  | close (page : CanvasPage)

def applyTaskEv (st : ClaimSysState) : TaskEv → ClaimSysState
  | .acquire t allowedBase candidates =>
    match waitForCanvasPage allowedBase st.claimed candidates with
    | (some page, claimed') =>
      ⟨claimed',
        fun u => if u = t then insert page (st.held u) else st.held u,
        fun u => if u = t then insert page (st.touched u) else st.touched u⟩
    | (none, claimed') => ⟨claimed', st.held, st.touched⟩
  | .adoptExisting t page =>
    match claimCanvasPage st.claimed page with
    | (true, claimed') =>
      ⟨claimed',
        fun u => if u = t then insert page (st.held u) else st.held u,
        fun u => if u = t then insert page (st.touched u) else st.touched u⟩
    | (false, claimed') =>
      ⟨claimed', st.held,
        fun u => if u = t then insert page (st.touched u) else st.touched u⟩
  | .finish t =>
    ⟨st.claimed \ st.touched t,
      fun u => if u = t then ∅ else st.held u,
      fun u => if u = t then ∅ else st.touched u⟩
  | .close page =>
    ⟨unclaimCanvasPage st.claimed page,
      fun u => (st.held u).erase page,
      fun u => (st.touched u).erase page⟩

def initClaimState : ClaimSysState := ⟨∅, fun _ => ∅, fun _ => ∅⟩

def runTaskEvents (evs : List TaskEv) : ClaimSysState :=
  evs.foldl applyTaskEv initClaimState

/-- The event discipline under which exclusivity is provable: every page a
task operates on is obtained through `waitForCanvasPage`'s claim-checked
path — no adoption of a pre-existing page via `pickExistingPage`'s
fallback. -/
def claimSafeEv : TaskEv → Prop
  | .adoptExisting _ _ => False
  | _ => True

instance claimSafeEvDecidable : ∀ ev : TaskEv, Decidable (claimSafeEv ev)
  | .acquire _ _ _ => .isTrue trivial
  | .adoptExisting _ _ => .isFalse id
  | .finish _ => .isTrue trivial
  | .close _ => .isTrue trivial

/-! ## Generation-ready poller (lovart_runner.js lines 1122-1172)

One `ReadyObs` is what the poll-loop body observes during one iteration:
`time` is `Date.now()` at the loop head, `pageClosed`/`aborted` the outcomes
of `assertPageOpen`/`throwIfAborted`, `errorIndicator` the value of
`hasGenerationErrorIndicator(page, selectors)` (explicit indicator selector
match or page-text match, lines 1194-1206), and the three counts are the
artifact signals the DOM would deliver at that iteration. -/

structure ReadyObs where
  time : ℕ
  pageClosed : Bool
  aborted : Bool
  errorIndicator : Bool
  urlCount : ℕ
  visualCount : ℕ
  summaryCount : ℕ
deriving Repr, DecidableEq

inductive ReadyOutcome where
  | ready (count : ℕ)
  | timedOut
  | genError
  | pageGone
  | abortedRun
deriving Repr, DecidableEq

/-- Fallback arm of the `minTarget` computation of `waitForGenerationReady`
(lines 1131-1133): `expectedCount` finite and positive gives
`max(1, floor(expectedCount))`, else 1. -/
def readyMinTargetExp : Option ℕ → ℕ
  | some e => if 0 < e then max 1 e else 1
  | none => 1

/-- The `minTarget` computation of `waitForGenerationReady`
(lines 1128-1133): `minCount` finite and positive gives
`max(1, floor(minCount))`, else fall back to `expectedCount`. -/
def readyMinTarget (expectedCount minCount : Option ℕ) : ℕ :=
  match minCount with
  | some m => if 0 < m then max 1 m else readyMinTargetExp expectedCount
  | none => readyMinTargetExp expectedCount

/-- The per-iteration count resolution of `waitForGenerationReady`
(lines 1142-1151): start from the URL-pattern count; only when it is short
of the target does the poller sample the rendered-image stats and take
`resolveEffectiveImageCount`. -/
def readyPollCount (expectedCount : Option ℕ) (minTarget : ℕ) (obs : ReadyObs) : ℕ :=
  let count := obs.urlCount
  if (expectedCount.getD 0 ≠ 0 ∧ count < expectedCount.getD 0) ∨ count < minTarget then
    resolveEffectiveImageCount obs.urlCount obs.visualCount obs.summaryCount
  else
    count

/-- `waitForGenerationReady` (lines 1122-1172) over an observation trace.
Faithful loop-body order: deadline at the head, `assertPageOpen`,
`throwIfAborted`, the error-indicator check (which throws
`generation_error`), then count resolution and the two readiness exits;
otherwise wait one interval and poll again.  (The `busy` probe only feeds
log messages and is elided; an exhausted trace stands for the clock passing
the deadline.) -/
def waitForGenerationReady (expectedCount minCount : Option ℕ) (deadline : ℕ) :
    List ReadyObs → ReadyOutcome
  | [] => .timedOut
  | obs :: rest =>
    if deadline ≤ obs.time then .timedOut
    else if obs.pageClosed then .pageGone
    else if obs.aborted then .abortedRun
    else if obs.errorIndicator then .genError
    else
      let minTarget := readyMinTarget expectedCount minCount
      let count := readyPollCount expectedCount minTarget obs
      if expectedCount.getD 0 ≠ 0 ∧ expectedCount.getD 0 ≤ count then .ready count
      else if minTarget ≤ count then .ready count
      else waitForGenerationReady expectedCount minCount deadline rest

/-! ## Zero-progress stall policy (lovart_runner.js lines 4214-4275)

`waitForCountWithRetry` inside `runLovartBatch`.  One `CountObs` is one
iteration of its outer loop: `startTime` is `Date.now()` at the loop head,
`errorIndicator` the `hasGenerationErrorIndicator` probe, `ok`/`count` the
outcome of the inner bounded `waitForAgentImagesCount` slice, `endTime` is
`Date.now()` when that slice returns, and `resubmitOk` the outcome of
`maybeResubmitPrompt` if this iteration attempts a resubmission. -/

structure CountObs where
  startTime : ℕ
  errorIndicator : Bool
  ok : Bool
  count : ℕ
  endTime : ℕ
  resubmitOk : Bool
deriving Repr, DecidableEq

inductive CountOutcome where
  | result (ok : Bool) (count : ℕ)
  | stuck
  | genError
deriving Repr, DecidableEq

/-- `waitForCountWithRetry` (lines 4214-4275) over an observation trace,
with state `(zeroSince, zeroImageRetryCount, lastResult)`.  Body order as in
the source: loop-head deadline check; `hasGenerationErrorIndicator` throws
`generation_error`; a satisfied inner wait returns; a nonzero count clears
`zeroSince` and polls again (the `maybeContinueGeneration` side effect on
the page is elided — it does not change the loop state modelled here);
at zero count, `zeroSince` defaults to the current time, the absolute
window check throws `generation_stuck`, and the bounded resubmission branch
either retries (clearing `zeroSince`) or returns the zero result when the
resubmission itself fails.  An exhausted trace stands for the clock passing
the deadline (`return lastResult`). -/
def waitForCountWithRetry (abortMs retryWindowMs maxRetries deadline : ℕ) :
    List CountObs → Option ℕ → ℕ → (Bool × ℕ) → CountOutcome
  | [], _, _, last => .result last.1 last.2
  | obs :: rest, zeroSince, retryCount, last =>
    if deadline ≤ obs.startTime then .result last.1 last.2
    else if obs.errorIndicator then .genError
    else if obs.ok then .result true obs.count
    else if 0 < obs.count then
      waitForCountWithRetry abortMs retryWindowMs maxRetries deadline rest
        none retryCount (false, obs.count)
    else
      let zs := zeroSince.getD obs.endTime
      if abortMs ≠ 0 ∧ abortMs ≤ obs.endTime - zs then .stuck
      else if retryWindowMs ≤ obs.endTime - zs ∧ retryCount < maxRetries ∧
          obs.endTime < deadline then
        if obs.resubmitOk then
          waitForCountWithRetry abortMs retryWindowMs maxRetries deadline rest
            none (retryCount + 1) (false, obs.count)
        else .result false obs.count
      else
        waitForCountWithRetry abortMs retryWindowMs maxRetries deadline rest
          (some zs) retryCount (false, obs.count)

/-! ## Zip-archive handling (lovart_runner.js lines 3003-3013, 3108-3171)

The archive's entry list (the file paths produced under `unzipDir` by
`unzip`/`bsdtar`, or the per-entry fallback) is modelled as a list of path
strings; JavaScript's `Array.prototype.sort()` default string order is
modelled by Lean's lexicographic `String` order, and `path.extname` +
`toLowerCase` are re-implemented below. -/

/-- `isZipFile` (lines 3003-3013): reads the first 4 bytes of the file into
a zero-filled buffer and recognizes a zip purely from `header[0] === 0x50 &&
header[1] === 0x4b` — the file name/extension is never consulted. -/
def isZipFile (bytes : List ℕ) : Bool :=
  bytes.getD 0 0 == 0x50 && bytes.getD 1 0 == 0x4b

/-- Split a character list on a separator (used to re-implement the path
manipulation of Node's `path` module with structurally recursive,
kernel-evaluable functions). -/
def splitOnChar (sep : Char) : List Char → List (List Char)
  | [] => [[]]
  | c :: cs =>
    match splitOnChar sep cs with
    | [] => if c == sep then [[], []] else [[c]]
    | seg :: rest => if c == sep then [] :: seg :: rest else (c :: seg) :: rest

/-- Node's `path.extname`: the suffix of the basename from its last dot,
empty when the basename has no dot or only a leading dot. -/
def extname (p : String) : String :=
  let base := (splitOnChar '/' p.data).getLastD []
  let parts := splitOnChar '.' base
  if parts.length ≤ 1 then ""
  else if parts.length = 2 ∧ parts.getD 0 [] = [] then ""
  else String.mk ('.' :: parts.getLastD [])

/-- The image-extension filter of `handleZipDownload` (lines 3114-3117):
`['.png', '.jpg', '.jpeg', '.webp'].includes(path.extname(file).toLowerCase())`. -/
def isImageEntry (file : String) : Bool :=
  ([".png", ".jpg", ".jpeg", ".webp"].map String.data).contains
    ((extname file).data.map Char.toLower)

/-- Lexicographic comparison of character lists by code point — the
comparison `Array.prototype.sort()` applies to strings (UTF-16 code-unit
order, which agrees with code-point order on BMP strings such as these
file paths). -/
def jsStringLeChars : List Char → List Char → Bool
  | [], _ => true
  | _ :: _, [] => false
  | a :: as, b :: bs =>
    if a.toNat < b.toNat then true
    else if b.toNat < a.toNat then false
    else jsStringLeChars as bs

/-- The string order used by `images.sort()` (line 3154). -/
def jsStringLe (a b : String) : Prop :=
  jsStringLeChars a.data b.data = true

instance jsStringLeDecidable : DecidableRel jsStringLe := fun a b => by
  unfold jsStringLe
  infer_instance

theorem jsStringLeChars_trans : ∀ as bs cs : List Char,
    jsStringLeChars as bs = true → jsStringLeChars bs cs = true →
    jsStringLeChars as cs = true := by
  intro as
  induction as with
  | nil => intro bs cs _ _; rfl
  | cons a as' ih =>
    intro bs cs h1 h2
    cases bs with
    | nil => simp [jsStringLeChars] at h1
    | cons b bs' =>
      cases cs with
      | nil => simp [jsStringLeChars] at h2
      | cons c cs' =>
        simp only [jsStringLeChars] at h1 h2 ⊢
        by_cases hab : a.toNat < b.toNat
        · by_cases hbc : b.toNat < c.toNat
          · rw [if_pos (by omega : a.toNat < c.toNat)]
          · by_cases hcb : c.toNat < b.toNat
            · rw [if_neg hbc, if_pos hcb] at h2
              simp at h2
            · rw [if_pos (by omega : a.toNat < c.toNat)]
        · by_cases hba : b.toNat < a.toNat
          · rw [if_neg hab, if_pos hba] at h1
            simp at h1
          · rw [if_neg hab, if_neg hba] at h1
            by_cases hbc : b.toNat < c.toNat
            · rw [if_pos (by omega : a.toNat < c.toNat)]
            · by_cases hcb : c.toNat < b.toNat
              · rw [if_neg hbc, if_pos hcb] at h2
                simp at h2
              · rw [if_neg hbc, if_neg hcb] at h2
                rw [if_neg (by omega : ¬ a.toNat < c.toNat),
                  if_neg (by omega : ¬ c.toNat < a.toNat)]
                exact ih bs' cs' h1 h2

theorem jsStringLeChars_total : ∀ as bs : List Char,
    jsStringLeChars as bs = true ∨ jsStringLeChars bs as = true := by
  intro as
  induction as with
  | nil => intro bs; left; rfl
  | cons a as' ih =>
    intro bs
    cases bs with
    | nil => right; rfl
    | cons b bs' =>
      simp only [jsStringLeChars]
      by_cases hab : a.toNat < b.toNat
      · left; rw [if_pos hab]
      · by_cases hba : b.toNat < a.toNat
        · right; rw [if_pos hba]
        · rw [if_neg hab, if_neg hba, if_neg hba, if_neg hab]
          exact ih bs'

instance jsStringLeIsTrans : IsTrans String jsStringLe :=
  ⟨fun a b c => jsStringLeChars_trans a.data b.data c.data⟩

instance jsStringLeIsTotal : IsTotal String jsStringLe :=
  ⟨fun a b => jsStringLeChars_total a.data b.data⟩

/-- The kept-and-sorted entry list of `handleZipDownload`: image-extension
entries only, then `images.sort()` (line 3154). -/
def sortedZipImages (entries : List String) : List String :=
  List.insertionSort jsStringLe (entries.filter isImageEntry)

/-- Target path of result slot `i` (0-based): `padIndex(i + 1) + '.png'`
under the output directory (line 3160). -/
def zipTargetPath (outputDir : String) (i : ℕ) : String :=
  outputDir ++ "/" ++ padIndex (i + 1) ++ ".png"

structure ZipOutcome where
  slots : List ResultSlot
  conversions : List (ℕ × String)
deriving Repr, DecidableEq

/-- `handleZipDownload` (lines 3108-3171): results start as `expectedCount`
failures `'缺少图片'`; for each `i < expectedCount` with an `i`-th sorted
image entry, that entry is converted to `padIndex(i+1).png` and slot `i`
becomes a success.  `conversions` records which archive entry was converted
into which slot (the `convertToPng(images[i], targetPath)` calls, in
order). -/
def handleZipDownload (outputDir : String) (entries : List String)
    (expectedCount : ℕ) : ZipOutcome :=
  let images := sortedZipImages entries
  { slots := (List.range expectedCount).map (fun i =>
      if images.getD i "" ≠ "" then
        ⟨true, zipTargetPath outputDir i, ""⟩
      else ⟨false, "", "缺少图片"⟩),
    conversions :=
      ((List.range expectedCount).filter (fun i => images.getD i "" ≠ "")).map
        (fun i => (i, images.getD i "")) }

/-! ## Task-queue claim (src/unnamed/part_000, lines 56-86 and 388-416)

A Bitable record's relevant fields.  JavaScript field values that may be
absent (`undefined`/`null`) are `Option String`; JS string truthiness
(`''` is falsy) is spelled out in the predicates.  `content.length` is the
character count (the worker's prompts are plain text, where JS UTF-16
length and character count agree for the BMP text involved). -/

structure BitableFields where
  status : Option String
  taskId : Option String
  rewrittenContent : Option String
  claimedBy : Option String
  claimedAt : Option ℕ
deriving Repr, DecidableEq

structure BitableRecord where
  recordId : String
  fields : BitableFields
deriving Repr, DecidableEq

/-- `isNew` (part_000 line 68): `s === 'new' || s === null || s === undefined
|| s === ''`. -/
def isNewStatus : Option String → Bool
  | none => true
  | some v => v == "new" || v == ""

/-- JavaScript `String.prototype.trim`: strip whitespace from both ends
(re-implemented structurally over the character list). -/
def jsTrim (s : String) : String :=
  String.mk
    (((s.data.dropWhile Char.isWhitespace).reverse.dropWhile
      Char.isWhitespace).reverse)

/-- `hasTaskId` (line 69): `tid && tid.trim() !== ''`. -/
def hasTaskId : Option String → Bool
  | none => false
  | some v => v ≠ "" && jsTrim v ≠ ""

/-- `hasContent` (line 70): `content && content.length >= minLen` with
`content = item.fields.rewritten_content || ''`; the minimum length is 10 in
the first worker variant and 30 in the second. -/
def hasContent (minLen : ℕ) (c : Option String) : Bool :=
  let content := c.getD ""
  content ≠ "" && minLen ≤ content.length

/-- `notClaimed` (line 71): `!claimed` (absent or empty claimant). -/
def notClaimed : Option String → Bool
  | none => true
  | some v => v == ""

/-- The qualification scan of `claimTask` (line 73):
`isNew && hasTaskId && hasContent && notClaimed`. -/
def qualifiesForClaim (minLen : ℕ) (r : BitableRecord) : Bool :=
  isNewStatus r.fields.status && hasTaskId r.fields.taskId &&
    hasContent minLen r.fields.rewrittenContent && notClaimed r.fields.claimedBy

/-- The `updateRecord` call of `claimTask` (lines 74-78): sets
`status: 'processing'`, `claimed_by: WORKER_NAME`, `claimed_at: now`. -/
def applyClaimUpdate (worker : String) (now : ℕ) (r : BitableRecord) :
    BitableRecord :=
  { r with fields := { r.fields with
      status := some "processing",
      claimedBy := some worker,
      claimedAt := some now } }

/-- `claimTask` (lines 56-86, and the second variant lines 388-416, which
differs only in the minimum content length): scan the records in order,
claim the first qualifying one (returning it with the claim update applied),
or return `null` and claim nothing. -/
def claimTask (minLen : ℕ) (worker : String) (now : ℕ) :
    List BitableRecord → Option BitableRecord
  | [] => none
  | r :: rest =>
    if qualifiesForClaim minLen r then some (applyClaimUpdate worker now r)
    else claimTask minLen worker now rest

/-! ## Direct-fetch download pool (lovart_runner.js lines 2392-2464)

`downloadImagesWithConcurrency` runs up to 8 workers over a shared cursor.
Index claiming (`const index = cursor; cursor += 1;`) is synchronous, so no
two workers process the same index, and each index's slot outcome depends
only on that index's environment.  The model runs the cursor sequentially
(the worker identity of an iteration is irrelevant to the slot it writes);
per-iteration time and abort observations are sampled per claimed index,
and the loop-head and post-claim deadline/stop checks — which no `await`
separates in the source — are taken at the same instant.  `fetched` records
the indexes for which a network fetch (`downloadImageFromUrl`) was
attempted; `Except.error ()` models `throwIfAborted` rejecting the run. -/

structure DlEnv where
  urls : List String
  fileExists : ℕ → Bool
  fetchOk : ℕ → Bool
  deadlineHit : ℕ → Bool
  abortedAt : ℕ → Bool

/-- The initial value of every slot and also the value written for a
missing URL (lines 2406 and 2427-2430): `{ ok: false, error: '缺少图片链接' }`. -/
def missingUrlSlot : ResultSlot := ⟨false, "", "缺少图片链接"⟩

/-- Target file of slot `index` (line 2431):
`path.join(outputDir, padIndex(index + 1) + '.png')`. -/
def dlTargetPath (outputDir : String) (index : ℕ) : String :=
  outputDir ++ "/" ++ padIndex (index + 1) ++ ".png"

/-- The worker loop of `downloadImagesWithConcurrency` (lines 2416-2461):
deadline break, abort throw, minimum-success stop, cursor claim and
`index >= count` break, then per index: missing URL → failure slot;
existing target file → success with the existing path and no fetch;
otherwise one `downloadImageFromUrl` attempt → success with the saved
target path or failure `'下载图片链接失败'`.  `fuel` starts at `count`
(each iteration advances the cursor, so `count` iterations exhaust it). -/
def dlLoop (env : DlEnv) (outputDir : String) (count stopAt : ℕ) :
    ℕ → ℕ → ℕ → List ResultSlot → List ℕ →
    Except Unit (List ResultSlot × List ℕ)
  | 0, _, _, results, fetched => .ok (results, fetched)
  | fuel + 1, index, successCount, results, fetched =>
    if env.deadlineHit index then .ok (results, fetched)
    else if env.abortedAt index then .error ()
    else if stopAt ≠ 0 ∧ stopAt ≤ successCount then .ok (results, fetched)
    else if count ≤ index then .ok (results, fetched)
    else if env.urls.getD index "" = "" then
        dlLoop env outputDir count stopAt fuel (index + 1) successCount
          (results.set index missingUrlSlot) fetched
    else if env.fileExists index then
        dlLoop env outputDir count stopAt fuel (index + 1) (successCount + 1)
          (results.set index ⟨true, dlTargetPath outputDir index, ""⟩) fetched
      else if env.fetchOk index then
        dlLoop env outputDir count stopAt fuel (index + 1) (successCount + 1)
          (results.set index ⟨true, dlTargetPath outputDir index, ""⟩)
          (fetched ++ [index])
      else
        dlLoop env outputDir count stopAt fuel (index + 1) successCount
          (results.set index ⟨false, "", "下载图片链接失败"⟩)
          (fetched ++ [index])

/-- `count = Number.isFinite(expectedCount) ? Math.max(0, Math.floor(expectedCount)) : 0`
(line 2405). -/
def dlSlotCount (expectedCount : Option ℚ) : ℕ :=
  match expectedCount with
  | some q => (max 0 ⌊q⌋).toNat
  | none => 0

/-- `downloadImagesWithConcurrency` (lines 2392-2464): builds the
`count`-sized results array of `'缺少图片链接'` failures, returns it untouched
when `count` is 0 (attempting nothing), computes the minimum-success
short-circuit bound `stopAt` (0 when `downloadUntilExpected` demands the
full set), and runs the worker loop. -/
def downloadImagesWithConcurrency (env : DlEnv) (outputDir : String)
    (expectedCount : Option ℚ) (minSuccessCount : ℕ)
    (downloadUntilExpected : Bool) : Except Unit (List ResultSlot × List ℕ) :=
  let count := dlSlotCount expectedCount
  let results := List.replicate count missingUrlSlot
  if count = 0 then .ok (results, [])
  else
    let stopAt :=
      if ¬ downloadUntilExpected ∧ 0 < minSuccessCount then
        max 1 (min minSuccessCount count)
      else 0
    dlLoop env outputDir count stopAt count 0 0 results []

/-! ## Results array lifecycle and final report (lovart_runner.js
lines 3529-3538, 4470-4505, 4649-4691, 4713-4720)

The `results` array is created as `expectedCount` copies of
`{ ok: false, error: '未开始' }` and is mutated only by the download
strategies: a zip extraction or a direct-download result array is copied in
with `forEach((entry, idx) => results[idx] = entry)` — a contiguous
overwrite starting at index 0 — and a single-file download sets
`results[0]`.  The final report either carries the array with the computed
`ok` flag (success path, lines 4685-4690) or, when an error was thrown,
carries the array as-is with `ok: false` (catch path, line 4719). -/

/-- Lines 3529-3532 (and `resetResults`, lines 3534-3538, which restores
exactly this state). -/
def initResults (n : ℕ) : List ResultSlot :=
  List.replicate n ⟨false, "", "未开始"⟩

structure FinalReport where
  ok : Bool
  results : List ResultSlot
  error : Option String
deriving Repr, DecidableEq

/-- The catch-path final report (line 4719):
`{ ok: false, results, error: err.message, ... }` (page/project identity
fields elided). -/
def runCatchReport (results : List ResultSlot) (msg : String) : FinalReport :=
  ⟨false, results, some msg⟩

/-- The success-path final report (lines 4685-4690). -/
def runSuccessReport (expectedCount : Option ℚ) (results : List ResultSlot) :
    FinalReport :=
  ⟨finalizeOk expectedCount results, results, none⟩

/-- One slot-overwriting action of the download pipeline. -/
inductive DlWrite where
  | zipWrite (outputDir : String) (entries : List String) (expectedCount : ℕ)
  | singleWrite (filePath : String)
  | directWrite (directResults : List ResultSlot)

/-- `xs.forEach((entry, idx) => results[idx] = entry)`: a contiguous
overwrite of the first `repl.length` positions (a JS array grows as needed
when `repl` is longer than `base`). -/
def overlayResults (base repl : List ResultSlot) : List ResultSlot :=
  repl ++ base.drop repl.length

def applyDlWrite (results : List ResultSlot) : DlWrite → List ResultSlot
  | .zipWrite outputDir entries n =>
    overlayResults results (handleZipDownload outputDir entries n).slots
  | .singleWrite p => overlayResults results [⟨true, p, ""⟩]
  | .directWrite dr => overlayResults results dr

/-- The results array after the download stage performed a given sequence
of slot-overwriting actions. -/
def runWrites (n : ℕ) (ws : List DlWrite) : List ResultSlot :=
  ws.foldl applyDlWrite (initResults n)

/-- A slot is well-formed when success carries a non-empty file path and
failure carries a non-empty reason string. -/
def wellFormedSlot (s : ResultSlot) : Prop :=
  (s.ok = true → s.filePath ≠ "") ∧ (s.ok = false → s.error ≠ "")

instance wellFormedSlotDecidable (s : ResultSlot) :
    Decidable (wellFormedSlot s) := by
  unfold wellFormedSlot
  infer_instance

/-- The write values the source can produce: a single-file write carries the
saved download's path, and a direct write carries a
`downloadImagesWithConcurrency` result array. -/
def wellFormedWrite : DlWrite → Prop
  | .zipWrite _ _ _ => True
  | .singleWrite p => p ≠ ""
  | .directWrite dr => ∀ s ∈ dr, wellFormedSlot s

end Lovart

namespace Lovart

/-- C1, part of the proof: the code's `Math.max(1, Math.ceil(count * 0.7))`
written over `ℤ` agrees with the spec's `max(1, ceil(0.7·n))` over `ℕ`. -/
theorem resolveMinimumSuccessCount_eq_ceil (n : ℕ) :
    resolveMinimumSuccessCount (some (n : ℚ)) = max 1 ⌈(7 * n : ℚ) / 10⌉₊ := by
  unfold resolveMinimumSuccessCount
  simp only [Int.floor_natCast]
  rcases Nat.eq_zero_or_pos n with h | h
  · subst h; norm_num
  · have hn : (n : ℤ) ≠ 0 := by exact_mod_cast h.ne'
    rw [if_neg hn]
    have harg : ((n : ℤ) : ℚ) * (7 / 10) = (7 * n : ℚ) / 10 := by
      push_cast; ring
    rw [harg]
    have htn : (⌈(7 * n : ℚ) / 10⌉).toNat = ⌈(7 * n : ℚ) / 10⌉₊ :=
      Int.ceil_toNat _
    omega

/-- C1: For every run, the final report's overall success flag: with an
expected artifact count `n > 0`, `ok` is true iff the number of successful
slots is at least `minSuccessCount = max(1, ceil(0.7·n))`; for `n = 0` and
for an unspecified (non-finite) expected count, `minSuccessCount = 1`; with
no expected count (or `n = 0`), `ok` is true iff at least one slot
succeeded.  Concrete thresholds: `n = 10 → 7`, `n = 1 → 1`, `n = 0 → 1`. -/
theorem final_ok_iff_min_success_count :
    (∀ (n : ℕ) (results : List ResultSlot), 0 < n →
      (finalizeOk (some (n : ℚ)) results = true ↔
        max 1 ⌈(7 * n : ℚ) / 10⌉₊ ≤ (results.filter (fun r => r.ok)).length)) ∧
    (resolveMinimumSuccessCount (some 0) = 1 ∧ resolveMinimumSuccessCount none = 1) ∧
    (∀ results : List ResultSlot,
      finalizeOk (some 0) results = true ↔ 0 < (results.filter (fun r => r.ok)).length) ∧
    (∀ results : List ResultSlot,
      finalizeOk none results = true ↔
        (if 0 < results.length then
          resolveMinimumSuccessCount none ≤ (results.filter (fun r => r.ok)).length
        else 0 < (results.filter (fun r => r.ok)).length)) ∧
    (resolveMinimumSuccessCount (some 10) = 7 ∧
      resolveMinimumSuccessCount (some 1) = 1 ∧
      resolveMinimumSuccessCount (some 0) = 1) := by
  refine ⟨?_, ⟨?_, ?_⟩, ?_, ?_, ?_, ?_, ?_⟩
  · intro n results hn
    have hexp : finalExpectedTotal (some (n : ℚ)) results.length = n := by
      simp [finalExpectedTotal]
    rw [finalizeOk]
    simp only [hexp, resolveMinimumSuccessCount_eq_ceil, if_pos hn]
    exact decide_eq_true_iff
  · simp [resolveMinimumSuccessCount]
  · simp [resolveMinimumSuccessCount]
  · intro results
    rw [finalizeOk]
    simp [finalExpectedTotal]
  · intro results
    rw [finalizeOk]
    rcases Nat.eq_zero_or_pos results.length with h | h
    · simp [finalExpectedTotal, h]
    · simp only [finalExpectedTotal, if_pos h]
      exact decide_eq_true_iff
  · simp only [resolveMinimumSuccessCount]
    norm_num
    decide
  · simp only [resolveMinimumSuccessCount]
    norm_num
    have h7 : (⌈(7 / 10 : ℚ)⌉ : ℤ) = 1 := by
      rw [Int.ceil_eq_iff]
      norm_num
    rw [h7]
    decide
  · simp [resolveMinimumSuccessCount]

/-- C1 witness: the theorem applied at expected count 10 with a concrete
results array of 7 successes (≥ the computed minimum 7). -/
theorem final_ok_iff_min_success_count_witness :
    finalizeOk (some ((10 : ℕ) : ℚ))
      (List.replicate 7 ⟨true, "out/001.png", ""⟩ ++
        List.replicate 3 ⟨false, "", "下载图片链接失败"⟩) = true := by
  have h := final_ok_iff_min_success_count.1 10
    (List.replicate 7 ⟨true, "out/001.png", ""⟩ ++
      List.replicate 3 ⟨false, "", "下载图片链接失败"⟩) (by decide)
  rw [h]
  have hc : max 1 (⌈(7 * (10 : ℕ) : ℚ) / 10⌉₊) = 7 := by push_cast; norm_num
  rw [hc]
  decide

/-- Helper: a successful `waitForCanvasPage` returns a page that was not in
the claim set and atomically inserts exactly that page. -/
theorem waitForCanvasPage_some_spec (allowedBase : CanvasPage → Bool) :
    ∀ (l : List CanvasPage) (claimed : Finset CanvasPage) (p : CanvasPage)
      (claimed' : Finset CanvasPage),
      waitForCanvasPage allowedBase claimed l = (some p, claimed') →
      p ∉ claimed ∧ claimed' = insert p claimed := by
  intro l
  induction l with
  | nil => intro claimed p claimed' h; simp [waitForCanvasPage] at h
  | cons page rest ih =>
    intro claimed p claimed' h
    rw [waitForCanvasPage] at h
    by_cases hcond : allowedBase page && !(isCanvasPageClaimed claimed page)
    · rw [if_pos hcond] at h
      have hmem : page ∉ claimed := by
        rcases Bool.and_eq_true_iff.mp hcond with ⟨_, hnc⟩
        simpa [isCanvasPageClaimed] using hnc
      rw [claimCanvasPage, if_neg hmem] at h
      simp only [Prod.mk.injEq, Option.some.injEq] at h
      obtain ⟨rfl, rfl⟩ := h
      exact ⟨hmem, rfl⟩
    · rw [if_neg hcond] at h
      exact ih claimed p claimed' h

/-- Helper: a failed `waitForCanvasPage` leaves the claim set unchanged. -/
theorem waitForCanvasPage_none_spec (allowedBase : CanvasPage → Bool) :
    ∀ (l : List CanvasPage) (claimed claimed' : Finset CanvasPage),
      waitForCanvasPage allowedBase claimed l = (none, claimed') →
      claimed' = claimed := by
  intro l
  induction l with
  | nil =>
    intro claimed claimed' h
    simpa [waitForCanvasPage] using h.symm
  | cons page rest ih =>
    intro claimed claimed' h
    rw [waitForCanvasPage] at h
    by_cases hcond : allowedBase page && !(isCanvasPageClaimed claimed page)
    · rw [if_pos hcond] at h
      have hmem : page ∉ claimed := by
        rcases Bool.and_eq_true_iff.mp hcond with ⟨_, hnc⟩
        simpa [isCanvasPageClaimed] using hnc
      rw [claimCanvasPage, if_neg hmem] at h
      simp at h
    · rw [if_neg hcond] at h
      exact ih claimed claimed' h

/-- The cross-task claim-set invariant: every held page is claimed, each
task only touches pages it holds, and the held sets of distinct tasks are
disjoint.  It is preserved only by `claimSafeEv` events — `adoptExisting`
breaks the middle conjunct, and with it the disjointness (see the C2
counterexample). -/
def ClaimInv (st : ClaimSysState) : Prop :=
  (∀ t, st.held t ⊆ st.claimed) ∧
  (∀ t, st.touched t ⊆ st.held t) ∧
  (∀ t u, t ≠ u → Disjoint (st.held t) (st.held u))

theorem applyTaskEv_preserves_ClaimInv (st : ClaimSysState) (ev : TaskEv)
    (hsafe : claimSafeEv ev) (hinv : ClaimInv st) :
    ClaimInv (applyTaskEv st ev) := by
  obtain ⟨hsub, htch, hdisj⟩ := hinv
  cases ev with
  | acquire t allowedBase candidates =>
    rw [applyTaskEv]
    rcases hwait : waitForCanvasPage allowedBase st.claimed candidates with ⟨res, claimed'⟩
    cases res with
    | none =>
      have hsame := waitForCanvasPage_none_spec allowedBase candidates st.claimed claimed' hwait
      subst hsame
      exact ⟨hsub, htch, hdisj⟩
    | some page =>
      obtain ⟨hnotin, hins⟩ :=
        waitForCanvasPage_some_spec allowedBase candidates st.claimed page claimed' hwait
      subst hins
      refine ⟨?_, ?_, ?_⟩
      · intro u
        by_cases hu : u = t
        · subst hu
          simp only [if_pos rfl]
          exact Finset.insert_subset_insert _ (hsub u)
        · simp only [if_neg hu]
          exact (hsub u).trans (Finset.subset_insert _ _)
      · intro u
        by_cases hu : u = t
        · subst hu
          simp only [if_pos rfl]
          exact Finset.insert_subset_insert _ (htch u)
        · simp only [if_neg hu]
          exact htch u
      · intro u v huv
        by_cases hu : u = t <;> by_cases hv : v = t
        · exact absurd (hu.trans hv.symm) huv
        · subst hu
          simp only [if_pos rfl, if_neg hv, if_true]
          rw [Finset.disjoint_insert_left]
          exact ⟨fun hc => hnotin (hsub v hc), hdisj _ _ huv⟩
        · subst hv
          simp only [if_pos rfl, if_neg hu, if_true]
          rw [Finset.disjoint_insert_right]
          exact ⟨fun hc => hnotin (hsub u hc), hdisj _ _ huv⟩
        · simp only [if_neg hu, if_neg hv]
          exact hdisj _ _ huv
  | adoptExisting t page => exact hsafe.elim
  | finish t =>
    rw [applyTaskEv]
    refine ⟨?_, ?_, ?_⟩
    · intro u
      by_cases hu : u = t
      · subst hu; simp
      · simp only [if_neg hu]
        intro x hx
        rw [Finset.mem_sdiff]
        refine ⟨hsub u hx, fun hc => ?_⟩
        exact (Finset.disjoint_left.mp (hdisj u t hu)) hx (htch t hc)
    · intro u
      by_cases hu : u = t
      · subst hu; simp
      · simp only [if_neg hu]
        exact htch u
    · intro u v huv
      by_cases hu : u = t <;> by_cases hv : v = t
      · exact absurd (hu.trans hv.symm) huv
      · subst hu; simp
      · subst hv; simp
      · simp only [if_neg hu, if_neg hv]
        exact hdisj _ _ huv
  | close page =>
    rw [applyTaskEv]
    refine ⟨?_, ?_, ?_⟩
    · intro u
      exact Finset.erase_subset_erase _ (hsub u)
    · intro u
      exact Finset.erase_subset_erase _ (htch u)
    · intro u v huv
      exact (hdisj u v huv).mono (Finset.erase_subset _ _) (Finset.erase_subset _ _)

theorem runTaskEvents_ClaimInv (evs : List TaskEv)
    (hsafe : ∀ ev ∈ evs, claimSafeEv ev) : ClaimInv (runTaskEvents evs) := by
  have hgen : ∀ (l : List TaskEv) (st : ClaimSysState),
      (∀ ev ∈ l, claimSafeEv ev) → ClaimInv st →
      ClaimInv (l.foldl applyTaskEv st) := by
    intro l
    induction l with
    | nil => intro st _ h; exact h
    | cons ev rest ih =>
      intro st hs h
      exact ih _ (fun e he => hs e (List.mem_cons_of_mem _ he))
        (applyTaskEv_preserves_ClaimInv st ev (hs ev (List.mem_cons_self _ _)) h)
  refine hgen evs initClaimState hsafe ?_
  refine ⟨?_, ?_, ?_⟩
  · intro t; simp [initClaimState]
  · intro t; simp [initClaimState]
  · intro t u _; simp [initClaimState]

/-- C2 counterexample: the claim "for any two concurrent tasks, the sets of
pages each holds claimed are disjoint at all times" is false for the
program.  Concrete trace: task 0 claims page 7 through `waitForCanvasPage`;
task 1 is handed the same page by `pickExistingPage`'s last-resort fallback
(line 327) — its `claimCanvasPage` no-ops (line 3886 ignores the result)
and it proceeds; task 1's `finally` (line 4741) then unclaims page 7 even
though the claim belongs to task 0; task 2 now successfully claims page 7
through `waitForCanvasPage` while task 0 still holds it — tasks 0 and 2
hold the same page claimed at the same time. -/
theorem canvas_claim_disjointness_counterexample :
    (runTaskEvents
      [TaskEv.acquire 0 (fun _ => true) [7],
       TaskEv.adoptExisting 1 7,
       TaskEv.finish 1,
       TaskEv.acquire 2 (fun _ => true) [7]]).held 0 = {7} ∧
    (runTaskEvents
      [TaskEv.acquire 0 (fun _ => true) [7],
       TaskEv.adoptExisting 1 7,
       TaskEv.finish 1,
       TaskEv.acquire 2 (fun _ => true) [7]]).held 2 = {7} ∧
    ¬ Disjoint
      ((runTaskEvents
        [TaskEv.acquire 0 (fun _ => true) [7],
         TaskEv.adoptExisting 1 7,
         TaskEv.finish 1,
         TaskEv.acquire 2 (fun _ => true) [7]]).held 0)
      ((runTaskEvents
        [TaskEv.acquire 0 (fun _ => true) [7],
         TaskEv.adoptExisting 1 7,
         TaskEv.finish 1,
         TaskEv.acquire 2 (fun _ => true) [7]]).held 2) := by
  refine ⟨by decide, by decide, ?_⟩
  intro h
  have h7 : (7 : CanvasPage) ∈ (runTaskEvents
      [TaskEv.acquire 0 (fun _ => true) [7],
       TaskEv.adoptExisting 1 7,
       TaskEv.finish 1,
       TaskEv.acquire 2 (fun _ => true) [7]]).held 0 := by decide
  have h7' : (7 : CanvasPage) ∈ (runTaskEvents
      [TaskEv.acquire 0 (fun _ => true) [7],
       TaskEv.adoptExisting 1 7,
       TaskEv.finish 1,
       TaskEv.acquire 2 (fun _ => true) [7]]).held 2 := by decide
  exact Finset.disjoint_left.mp h h7 h7'

/-- C2 (amended): `waitForCanvasPage` never returns an already-claimed page
and adds the returned page to the claim set atomically with returning it;
re-claiming an already-claimed page is a no-op leaving the set unchanged;
unclaiming (page close / task-finish cleanup) removes the claim; and the
sets of pages held claimed by two distinct tasks are disjoint after any
event sequence **in which every page a task operates on is obtained through
`waitForCanvasPage`'s claim-checked path** — the source's
`pickExistingPage` fallback can adopt a foreign claimed page, whose owner's
claim the adopting task's `finally` then releases, breaking disjointness
(see the counterexample). -/
theorem canvas_claim_set_exclusive_amended :
    (∀ (claimed : Finset CanvasPage) (p : CanvasPage), p ∈ claimed →
      claimCanvasPage claimed p = (false, claimed)) ∧
    (∀ (allowedBase : CanvasPage → Bool) (l : List CanvasPage)
      (claimed claimed' : Finset CanvasPage) (p : CanvasPage),
      waitForCanvasPage allowedBase claimed l = (some p, claimed') →
      isCanvasPageClaimed claimed p = false ∧ claimed' = insert p claimed) ∧
    (∀ (claimed : Finset CanvasPage) (p : CanvasPage),
      isCanvasPageClaimed (unclaimCanvasPage claimed p) p = false) ∧
    (∀ (evs : List TaskEv), (∀ ev ∈ evs, claimSafeEv ev) →
      ∀ (t u : TaskId), t ≠ u →
      Disjoint ((runTaskEvents evs).held t) ((runTaskEvents evs).held u)) := by
  refine ⟨?_, ?_, ?_, ?_⟩
  · intro claimed p hp
    rw [claimCanvasPage, if_pos hp]
  · intro allowedBase l claimed claimed' p h
    obtain ⟨hnotin, hins⟩ := waitForCanvasPage_some_spec allowedBase l claimed p claimed' h
    exact ⟨by simpa [isCanvasPageClaimed] using hnotin, hins⟩
  · intro claimed p
    simp [isCanvasPageClaimed, unclaimCanvasPage]
  · intro evs hsafe t u huv
    exact (runTaskEvents_ClaimInv evs hsafe).2.2 t u huv

/-- C2 witness (amended theorem): two concurrent tasks racing for
overlapping candidate pages through the claim-checked path end up holding
disjoint page sets, via the theorem at a concrete event trace, and
re-claiming a claimed page concretely is a no-op. -/
theorem canvas_claim_set_exclusive_amended_witness :
    Disjoint
      ((runTaskEvents
        [TaskEv.acquire 0 (fun _ => true) [5],
         TaskEv.acquire 1 (fun _ => true) [5, 6]]).held 0)
      ((runTaskEvents
        [TaskEv.acquire 0 (fun _ => true) [5],
         TaskEv.acquire 1 (fun _ => true) [5, 6]]).held 1) ∧
    claimCanvasPage {5} 5 = (false, {5}) :=
  ⟨canvas_claim_set_exclusive_amended.2.2.2
      [TaskEv.acquire 0 (fun _ => true) [5],
       TaskEv.acquire 1 (fun _ => true) [5, 6]] (by decide) 0 1 (by decide),
   canvas_claim_set_exclusive_amended.1 {5} 5 (by decide)⟩

/-- C7: at each poll the textual summary count is never able to raise the
effective artifact count: `resolveEffectiveImageCount` equals the maximum of
the URL-pattern count and the visually-rendered count, is independent of the
summary count, and never exceeds that maximum. -/
theorem effective_count_eq_max_and_ignores_summary :
    (∀ urlCount visualCount summaryCount : ℕ,
      resolveEffectiveImageCount urlCount visualCount summaryCount =
        max urlCount visualCount) ∧
    (∀ urlCount visualCount s₁ s₂ : ℕ,
      resolveEffectiveImageCount urlCount visualCount s₁ =
        resolveEffectiveImageCount urlCount visualCount s₂) ∧
    (∀ urlCount visualCount summaryCount : ℕ,
      resolveEffectiveImageCount urlCount visualCount summaryCount ≤
        max urlCount visualCount) := by
  refine ⟨?_, ?_, ?_⟩
  · intro u v s
    unfold resolveEffectiveImageCount
    dsimp only
    split <;> omega
  · intro u v s₁ s₂; rfl
  · intro u v s
    unfold resolveEffectiveImageCount
    dsimp only
    split <;> omega

/-- C4: whenever the error indicator is observed at a reached poll iteration
(deadline not yet passed, page open, run not aborted), `waitForGenerationReady`
raises `generation_error` at that very iteration — for every remaining
timeout budget and every continuation of the trace — and conversely a
`generation_error` outcome only ever arises from an iteration that showed
the indicator, so the poller never silently retries past it and never waits
out the full timeout. -/
theorem gen_error_raised_within_poll_interval :
    (∀ (expectedCount minCount : Option ℕ) (deadline : ℕ)
      (obs : ReadyObs) (rest : List ReadyObs),
      obs.time < deadline → obs.pageClosed = false → obs.aborted = false →
      obs.errorIndicator = true →
      waitForGenerationReady expectedCount minCount deadline (obs :: rest) =
        .genError) ∧
    (∀ (expectedCount minCount : Option ℕ) (deadline : ℕ)
      (trace : List ReadyObs),
      waitForGenerationReady expectedCount minCount deadline trace = .genError →
      ∃ obs ∈ trace, obs.errorIndicator = true) := by
  constructor
  · intro expectedCount minCount deadline obs rest htime hopen habort herr
    rw [waitForGenerationReady]
    rw [if_neg (by omega), if_neg (by simp [hopen]), if_neg (by simp [habort]),
      if_pos herr]
  · intro expectedCount minCount deadline trace
    induction trace with
    | nil => intro h; simp [waitForGenerationReady] at h
    | cons obs rest ih =>
      intro h
      rw [waitForGenerationReady] at h
      by_cases h1 : deadline ≤ obs.time
      · rw [if_pos h1] at h; exact absurd h (by simp)
      rw [if_neg h1] at h
      by_cases h2 : obs.pageClosed
      · rw [if_pos h2] at h; exact absurd h (by simp)
      rw [if_neg h2] at h
      by_cases h3 : obs.aborted
      · rw [if_pos h3] at h; exact absurd h (by simp)
      rw [if_neg h3] at h
      by_cases h4 : obs.errorIndicator
      · exact ⟨obs, List.mem_cons_self _ _, h4⟩
      rw [if_neg h4] at h
      by_cases h5 : expectedCount.getD 0 ≠ 0 ∧ expectedCount.getD 0 ≤
          readyPollCount expectedCount (readyMinTarget expectedCount minCount) obs
      · rw [if_pos h5] at h; exact absurd h (by simp)
      rw [if_neg h5] at h
      by_cases h6 : readyMinTarget expectedCount minCount ≤
          readyPollCount expectedCount (readyMinTarget expectedCount minCount) obs
      · rw [if_pos h6] at h; exact absurd h (by simp)
      rw [if_neg h6] at h
      obtain ⟨o, ho, hoe⟩ := ih h
      exact ⟨o, List.mem_cons_of_mem _ ho, hoe⟩

/-- C4 witness: the spec's scenario — the explicit error indicator appears
2 seconds into polling, and the poller raises `generation_error` at that
iteration although 178 seconds of budget remain. -/
theorem gen_error_raised_within_poll_interval_witness :
    waitForGenerationReady (some 4) none 180000
      [⟨2000, false, false, true, 0, 0, 0⟩] = ReadyOutcome.genError :=
  gen_error_raised_within_poll_interval.1 (some 4) none 180000
    ⟨2000, false, false, true, 0, 0, 0⟩ [] (by decide) rfl rfl rfl

/-- C3: once the artifact count has been zero since time `t` (with the
bounded resubmission retries exhausted), any poll whose post-wait clock has
advanced at least `zeroImageAbortMs` past `t` makes `waitForCountWithRetry`
throw `generation_stuck` at that poll — even though the stage deadline has
not elapsed (`obs.startTime < deadline`) — and a nonzero count observed at
any poll resets the zero-progress window (`zeroSince` becomes `none`). -/
theorem zero_progress_stuck_abort :
    (∀ (abortMs retryWindowMs maxRetries deadline : ℕ) (t : ℕ)
      (obs : CountObs) (rest : List CountObs) (retryCount : ℕ)
      (last : Bool × ℕ),
      obs.startTime < deadline → obs.errorIndicator = false →
      obs.ok = false → obs.count = 0 →
      maxRetries ≤ retryCount →
      abortMs ≠ 0 → t + abortMs ≤ obs.endTime →
      waitForCountWithRetry abortMs retryWindowMs maxRetries deadline
        (obs :: rest) (some t) retryCount last = .stuck) ∧
    (∀ (abortMs retryWindowMs maxRetries deadline : ℕ)
      (obs : CountObs) (rest : List CountObs) (zeroSince : Option ℕ)
      (retryCount : ℕ) (last : Bool × ℕ),
      obs.startTime < deadline → obs.errorIndicator = false →
      obs.ok = false → 0 < obs.count →
      waitForCountWithRetry abortMs retryWindowMs maxRetries deadline
        (obs :: rest) zeroSince retryCount last =
      waitForCountWithRetry abortMs retryWindowMs maxRetries deadline
        rest none retryCount (false, obs.count)) := by
  constructor
  · intro abortMs retryWindowMs maxRetries deadline t obs rest retryCount last
      htime herr hok hcount hretry habort hwin
    rw [waitForCountWithRetry]
    rw [if_neg (by omega), if_neg (by simp [herr]), if_neg (by simp [hok]),
      if_neg (by omega)]
    simp only [Option.getD_some]
    rw [if_pos ⟨habort, by omega⟩]
  · intro abortMs retryWindowMs maxRetries deadline obs rest zeroSince
      retryCount last htime herr hok hcount
    rw [waitForCountWithRetry]
    rw [if_neg (by omega), if_neg (by simp [herr]), if_neg (by simp [hok]),
      if_pos hcount]

/-- Helper: membership in the kept-and-sorted zip entry list. -/
theorem sortedZipImages_mem (entries : List String) (e : String) :
    e ∈ sortedZipImages entries ↔ e ∈ entries ∧ isImageEntry e = true := by
  rw [sortedZipImages, (List.perm_insertionSort _ _).mem_iff, List.mem_filter]

/-- C5: a zip is recognized purely by its first two magic bytes (never by
name or extension); for every extracted archive only image-extension
entries are kept, they are sorted lexicographically, slot `i` is populated
exactly when a sorted `i`-th image entry exists (1:1 mapping starting at
index 0), and everything converted into a slot is an image entry of the
archive — non-image entries are ignored. -/
theorem zip_magic_and_lex_slot_mapping :
    (∀ (b₁ b₂ : ℕ) (rest : List ℕ),
      isZipFile (b₁ :: b₂ :: rest) = (b₁ == 0x50 && b₂ == 0x4b)) ∧
    (∀ entries : List String, (sortedZipImages entries).Sorted jsStringLe) ∧
    (∀ (entries : List String) (e : String),
      e ∈ sortedZipImages entries ↔ e ∈ entries ∧ isImageEntry e = true) ∧
    (∀ (outputDir : String) (entries : List String) (n : ℕ),
      (handleZipDownload outputDir entries n).slots.length = n) ∧
    (∀ (outputDir : String) (entries : List String) (n i : ℕ), i < n →
      (handleZipDownload outputDir entries n).slots.getD i default =
        (if (sortedZipImages entries).getD i "" ≠ "" then
          ⟨true, zipTargetPath outputDir i, ""⟩
        else ⟨false, "", "缺少图片"⟩)) ∧
    (∀ (outputDir : String) (entries : List String) (n i : ℕ) (src : String),
      (i, src) ∈ (handleZipDownload outputDir entries n).conversions →
      i < n ∧ src = (sortedZipImages entries).getD i "" ∧
        isImageEntry src = true ∧ src ∈ entries) := by
  refine ⟨?_, ?_, ?_, ?_, ?_, ?_⟩
  · intro b₁ b₂ rest; rfl
  · intro entries
    exact List.sorted_insertionSort _ _
  · intro entries e
    exact sortedZipImages_mem entries e
  · intro outputDir entries n
    simp [handleZipDownload]
  · intro outputDir entries n i hi
    rw [handleZipDownload]
    rw [List.getD_eq_getElem _ _ (by simpa using hi)]
    simp
  · intro outputDir entries n i src hmem
    rw [handleZipDownload] at hmem
    simp only [List.mem_map, List.mem_filter, List.mem_range,
      decide_eq_true_eq] at hmem
    obtain ⟨j, ⟨hjn, hje⟩, hpair⟩ := hmem
    have h1 : j = i := congrArg Prod.fst hpair
    subst h1
    have h2 : (sortedZipImages entries).getD j "" = src := congrArg Prod.snd hpair
    subst h2
    have hlen : j < (sortedZipImages entries).length := by
      by_contra hc
      rw [List.getD_eq_default _ _ (by omega)] at hje
      simp at hje
    have hmem2 : (sortedZipImages entries).getD j "" ∈ sortedZipImages entries := by
      rw [List.getD_eq_getElem _ _ hlen]
      exact List.getElem_mem hlen
    have hprops := (sortedZipImages_mem entries _).mp hmem2
    exact ⟨hjn, rfl, hprops.2, hprops.1⟩

/-- C5 witness: the spec's scenario — an archive with 5 valid images and 2
non-image entries, expected count 5: exactly 5 result slots are populated,
in lexicographic entry order (slot 0 gets the lexicographically first image
entry), via the theorem at the concrete archive. -/
theorem zip_magic_and_lex_slot_mapping_witness :
    ((handleZipDownload "out"
        ["b.png", "a.jpg", "readme.txt", "c.webp", "d.jpeg", "notes.md", "e.png"]
        5).slots.filter (fun s => s.ok)).length = 5 ∧
    sortedZipImages
        ["b.png", "a.jpg", "readme.txt", "c.webp", "d.jpeg", "notes.md", "e.png"] =
      ["a.jpg", "b.png", "c.webp", "d.jpeg", "e.png"] ∧
    (handleZipDownload "out"
        ["b.png", "a.jpg", "readme.txt", "c.webp", "d.jpeg", "notes.md", "e.png"]
        5).slots.getD 0 default = ⟨true, zipTargetPath "out" 0, ""⟩ ∧
    isZipFile [0x50, 0x4b, 3, 4] = true :=
  ⟨by decide, by decide,
   by
    rw [zip_magic_and_lex_slot_mapping.2.2.2.2.1 "out"
      ["b.png", "a.jpg", "readme.txt", "c.webp", "d.jpeg", "notes.md", "e.png"]
      5 0 (by decide)]
    decide,
   zip_magic_and_lex_slot_mapping.1 0x50 0x4b [3, 4]⟩

/-- C9: `claimTask` claims a record only if its status is empty/null/'new',
its task identifier is non-empty after trimming, its content reaches the
configured minimum length, and it has no existing claimant; on claiming it
sets `status: 'processing'`, the worker name and the claim timestamp and
returns that record; if no record qualifies it returns null and claims
nothing. -/
theorem claim_task_qualification :
    (∀ (minLen : ℕ) (worker : String) (now : ℕ) (items : List BitableRecord)
      (claimed : BitableRecord),
      claimTask minLen worker now items = some claimed →
      ∃ orig ∈ items, qualifiesForClaim minLen orig = true ∧
        claimed = applyClaimUpdate worker now orig ∧
        claimed.fields.status = some "processing" ∧
        claimed.fields.claimedBy = some worker ∧
        claimed.fields.claimedAt = some now ∧
        isNewStatus orig.fields.status = true ∧
        hasTaskId orig.fields.taskId = true ∧
        hasContent minLen orig.fields.rewrittenContent = true ∧
        notClaimed orig.fields.claimedBy = true) ∧
    (∀ (minLen : ℕ) (worker : String) (now : ℕ) (items : List BitableRecord),
      claimTask minLen worker now items = none ↔
        ∀ r ∈ items, qualifiesForClaim minLen r = false) := by
  constructor
  · intro minLen worker now items
    induction items with
    | nil => intro claimed h; simp [claimTask] at h
    | cons r rest ih =>
      intro claimed h
      rw [claimTask] at h
      by_cases hq : qualifiesForClaim minLen r
      · rw [if_pos hq] at h
        obtain ⟨rfl⟩ : applyClaimUpdate worker now r = claimed :=
          Option.some.inj h
        have hq4 := hq
        rw [qualifiesForClaim] at hq4
        simp only [Bool.and_eq_true] at hq4
        exact ⟨r, List.mem_cons_self _ _, hq, rfl, rfl, rfl, rfl,
          hq4.1.1.1, hq4.1.1.2, hq4.1.2, hq4.2⟩
      · rw [if_neg hq] at h
        obtain ⟨orig, horig, hrest⟩ := ih claimed h
        exact ⟨orig, List.mem_cons_of_mem _ horig, hrest⟩
  · intro minLen worker now items
    induction items with
    | nil => simp [claimTask]
    | cons r rest ih =>
      rw [claimTask]
      by_cases hq : qualifiesForClaim minLen r
      · rw [if_pos hq]
        simp only [List.mem_cons]
        constructor
        · intro h; simp at h
        · intro h
          have := h r (Or.inl rfl)
          rw [hq] at this
          simp at this
      · rw [if_neg hq]
        rw [ih]
        constructor
        · intro h r' hr'
          rcases List.mem_cons.mp hr' with rfl | hmem
          · simpa using hq
          · exact h r' hmem
        · intro h r' hr'
          exact h r' (List.mem_cons_of_mem _ hr')

/-- C9 witness: the theorem at a concrete queue — one stale record (already
claimed) followed by one fresh record; the fresh record is claimed with the
processing status, worker name and timestamp. -/
theorem claim_task_qualification_witness :
    ∃ orig ∈
      [⟨"recA", ⟨some "processing", some "t-1", some "0123456789", some "other", some 3⟩⟩,
       (⟨"recB", ⟨none, some "t-2", some "0123456789", none, none⟩⟩ : BitableRecord)],
      qualifiesForClaim 10 orig = true ∧
      (⟨"recB", ⟨some "processing", some "t-2", some "0123456789", some "worker-1", some 99⟩⟩ :
          BitableRecord) = applyClaimUpdate "worker-1" 99 orig ∧
      (BitableFields.status ⟨some "processing", some "t-2", some "0123456789",
        some "worker-1", some 99⟩) = some "processing" ∧
      (BitableFields.claimedBy ⟨some "processing", some "t-2", some "0123456789",
        some "worker-1", some 99⟩) = some "worker-1" ∧
      (BitableFields.claimedAt ⟨some "processing", some "t-2", some "0123456789",
        some "worker-1", some 99⟩) = some 99 ∧
      isNewStatus orig.fields.status = true ∧
      hasTaskId orig.fields.taskId = true ∧
      hasContent 10 orig.fields.rewrittenContent = true ∧
      notClaimed orig.fields.claimedBy = true :=
  claim_task_qualification.1 10 "worker-1" 99
    [⟨"recA", ⟨some "processing", some "t-1", some "0123456789", some "other", some 3⟩⟩,
     ⟨"recB", ⟨none, some "t-2", some "0123456789", none, none⟩⟩]
    ⟨"recB", ⟨some "processing", some "t-2", some "0123456789", some "worker-1", some 99⟩⟩
    (by decide)

/-- Helper: the worker loop never changes the length of the results
array. -/
theorem dlLoop_length (env : DlEnv) (outputDir : String) (count stopAt : ℕ) :
    ∀ (fuel index successCount : ℕ) (results : List ResultSlot)
      (fetched : List ℕ) (r : List ResultSlot) (f : List ℕ),
      dlLoop env outputDir count stopAt fuel index successCount results fetched =
        .ok (r, f) →
      r.length = results.length := by
  intro fuel
  induction fuel with
  | zero =>
    intro index successCount results fetched r f h
    rw [dlLoop] at h
    obtain ⟨rfl, rfl⟩ := Prod.mk.injEq .. ▸ Except.ok.inj h
    rfl
  | succ fuel ih =>
    intro index successCount results fetched r f h
    rw [dlLoop] at h
    split at h
    · cases h; rfl
    · split at h
      · cases h
      · split at h
        · cases h; rfl
        · split at h
          · cases h; rfl
          · split at h
            · exact (ih _ _ _ _ _ _ h).trans (List.length_set _ _ _)
            · split at h
              · exact (ih _ _ _ _ _ _ h).trans (List.length_set _ _ _)
              · split at h
                · exact (ih _ _ _ _ _ _ h).trans (List.length_set _ _ _)
                · exact (ih _ _ _ _ _ _ h).trans (List.length_set _ _ _)

/-- Helper: a slot whose index has no URL keeps (or is rewritten to) the
`'缺少图片链接'` failure value throughout the worker loop. -/
theorem dlLoop_missing_url (env : DlEnv) (outputDir : String)
    (count stopAt : ℕ) (i : ℕ) (hurl : env.urls.getD i "" = "") :
    ∀ (fuel index successCount : ℕ) (results : List ResultSlot)
      (fetched : List ℕ) (r : List ResultSlot) (f : List ℕ),
      results.get? i = some missingUrlSlot →
      dlLoop env outputDir count stopAt fuel index successCount results fetched =
        .ok (r, f) →
      r.get? i = some missingUrlSlot := by
  intro fuel
  induction fuel with
  | zero =>
    intro index successCount results fetched r f hinv h
    rw [dlLoop] at h
    obtain ⟨rfl, rfl⟩ := Prod.mk.injEq .. ▸ Except.ok.inj h
    exact hinv
  | succ fuel ih =>
    intro index successCount results fetched r f hinv h
    have hset : ∀ v : ResultSlot, index ≠ i →
        (results.set index v).get? i = some missingUrlSlot := by
      intro v hne
      rw [List.get?_set_ne _ _ hne]
      exact hinv
    have hlen : i < results.length := List.get?_eq_some.mp hinv |>.1
    rw [dlLoop] at h
    split at h
    · cases h; exact hinv
    · split at h
      · cases h
      · split at h
        · cases h; exact hinv
        · split at h
          · cases h; exact hinv
          · rename_i hurl2
            by_cases hne : index = i
            · subst hne
              split at h
              · refine ih _ _ _ _ _ _ ?_ h
                rw [List.get?_set_eq_of_lt _ hlen]
              · rename_i hcontra
                exact absurd hurl hcontra
            · split at h
              · exact ih _ _ _ _ _ _ (hset _ hne) h
              · split at h
                · exact ih _ _ _ _ _ _ (hset _ hne) h
                · split at h
                  · exact ih _ _ _ _ _ _ (hset _ hne) h
                  · exact ih _ _ _ _ _ _ (hset _ hne) h

/-- Helper: an index whose URL is present and whose target file already
exists is never fetched over the network, and its slot is either untouched
(the loop stopped before reaching it) or a success carrying the existing
target path. -/
theorem dlLoop_existing_file_no_fetch (env : DlEnv) (outputDir : String)
    (count stopAt : ℕ) (i : ℕ) (hurl : env.urls.getD i "" ≠ "")
    (hfile : env.fileExists i = true) :
    ∀ (fuel index successCount : ℕ) (results : List ResultSlot)
      (fetched : List ℕ) (r : List ResultSlot) (f : List ℕ),
      (results.get? i = some missingUrlSlot ∨
        results.get? i = some ⟨true, dlTargetPath outputDir i, ""⟩) →
      i ∉ fetched →
      dlLoop env outputDir count stopAt fuel index successCount results fetched =
        .ok (r, f) →
      (r.get? i = some missingUrlSlot ∨
        r.get? i = some ⟨true, dlTargetPath outputDir i, ""⟩) ∧ i ∉ f := by
  intro fuel
  induction fuel with
  | zero =>
    intro index successCount results fetched r f hinv hfet h
    rw [dlLoop] at h
    obtain ⟨rfl, rfl⟩ := Prod.mk.injEq .. ▸ Except.ok.inj h
    exact ⟨hinv, hfet⟩
  | succ fuel ih =>
    intro index successCount results fetched r f hinv hfet h
    have hset : ∀ v : ResultSlot, index ≠ i →
        (results.set index v).get? i = results.get? i := fun v hne =>
      List.get?_set_ne _ _ hne
    have hlen : i < results.length := by
      rcases hinv with hv | hv <;> exact (List.get?_eq_some.mp hv).1
    have hfet2 : index ≠ i → i ∉ fetched ++ [index] := by
      intro hne hc
      rcases List.mem_append.mp hc with hc | hc
      · exact hfet hc
      · simp at hc
        exact hne hc.symm
    rw [dlLoop] at h
    split at h
    · cases h; exact ⟨hinv, hfet⟩
    · split at h
      · cases h
      · split at h
        · cases h; exact ⟨hinv, hfet⟩
        · split at h
          · cases h; exact ⟨hinv, hfet⟩
          · by_cases hne : index = i
            · subst hne
              split at h
              · rename_i hcontra
                exact absurd hcontra hurl
              · refine ih _ _ _ _ _ _ ?_ hfet h
                right
                rw [List.get?_set_eq_of_lt _ hlen]
            · split at h
              · exact ih _ _ _ _ _ _ ((hset _ hne).symm ▸ hinv) hfet h
              · split at h
                · exact ih _ _ _ _ _ _ ((hset _ hne).symm ▸ hinv) hfet h
                · split at h
                  · exact ih _ _ _ _ _ _ ((hset _ hne).symm ▸ hinv) (hfet2 hne) h
                  · exact ih _ _ _ _ _ _ ((hset _ hne).symm ▸ hinv) (hfet2 hne) h

/-- Helper: with no short-circuit (`stopAt = 0`), no deadline hit, no abort,
and every remaining index having a URL and an existing target file, the
loop completes with no network fetch and every remaining slot successful. -/
theorem dlLoop_all_existing (env : DlEnv) (outputDir : String) (count : ℕ)
    (hdl : ∀ j, env.deadlineHit j = false)
    (hab : ∀ j, env.abortedAt j = false) :
    ∀ (fuel index successCount : ℕ) (results : List ResultSlot)
      (fetched : List ℕ),
      (∀ j, index ≤ j → j < count → env.urls.getD j "" ≠ "") →
      (∀ j, index ≤ j → j < count → env.fileExists j = true) →
      count ≤ index + fuel →
      ∃ r, dlLoop env outputDir count 0 fuel index successCount results fetched =
          .ok (r, fetched) ∧
        r.length = results.length ∧
        (∀ j, j < index ∨ count ≤ j → r.get? j = results.get? j) ∧
        (∀ j, index ≤ j → j < count → j < results.length →
          r.get? j = some ⟨true, dlTargetPath outputDir j, ""⟩) := by
  intro fuel
  induction fuel with
  | zero =>
    intro index successCount results fetched hurls hfiles hfuel
    refine ⟨results, by rw [dlLoop], rfl, fun j _ => rfl, ?_⟩
    intro j hj1 hj2 _
    omega
  | succ fuel ih =>
    intro index successCount results fetched hurls hfiles hfuel
    by_cases hidx : count ≤ index
    · refine ⟨results, ?_, rfl, fun j _ => rfl, fun j hj1 hj2 _ => by omega⟩
      rw [dlLoop]
      rw [if_neg (show ¬(env.deadlineHit index = true) by simp [hdl index])]
      rw [if_neg (show ¬(env.abortedAt index = true) by simp [hab index])]
      rw [if_neg (show ¬((0 : ℕ) ≠ 0 ∧ 0 ≤ successCount) by simp)]
      rw [if_pos hidx]
    · have hurl := hurls index (le_refl _) (by omega)
      have hfile := hfiles index (le_refl _) (by omega)
      obtain ⟨r, heq, hlen, hout, hin⟩ := ih (index + 1) (successCount + 1)
        (results.set index ⟨true, dlTargetPath outputDir index, ""⟩) fetched
        (fun j hj1 hj2 => hurls j (by omega) hj2)
        (fun j hj1 hj2 => hfiles j (by omega) hj2)
        (by omega)
      refine ⟨r, ?_, ?_, ?_, ?_⟩
      · rw [dlLoop]
        rw [if_neg (show ¬(env.deadlineHit index = true) by simp [hdl index])]
        rw [if_neg (show ¬(env.abortedAt index = true) by simp [hab index])]
        rw [if_neg (show ¬((0 : ℕ) ≠ 0 ∧ 0 ≤ successCount) by simp)]
        rw [if_neg (show ¬ count ≤ index by omega)]
        rw [if_neg (show ¬(env.urls.getD index "" = "") from hurl)]
        rw [if_pos hfile]
        exact heq
      · rw [hlen, List.length_set]
      · intro j hj
        rw [hout j (by omega)]
        exact List.get?_set_ne _ _ (by omega)
      · intro j hj1 hj2 hj3
        by_cases hji : j = index
        · subst hji
          rw [hout j (Or.inl (by omega))]
          rw [List.get?_set_eq_of_lt _ hj3]
        · refine hin j (by omega) hj2 ?_
          rw [List.length_set]
          exact hj3

/-- C10: `downloadImagesWithConcurrency` returns an array of length exactly
`max(0, floor(expectedCount))` regardless of how many URLs are supplied;
for a 0, negative or non-finite expected count it returns an empty array
and attempts no download; and every index without a URL carries the failure
slot `'缺少图片链接'` rather than being skipped or shrinking the array. -/
theorem download_results_length_and_missing_urls :
    (∀ (env : DlEnv) (outputDir : String) (q : Option ℚ) (minS : ℕ)
      (dUE : Bool) (r : List ResultSlot) (f : List ℕ),
      downloadImagesWithConcurrency env outputDir q minS dUE = .ok (r, f) →
      r.length = dlSlotCount q) ∧
    (∀ q : ℚ, dlSlotCount (some q) = (max 0 ⌊q⌋).toNat) ∧
    (∀ q : ℚ, q ≤ 0 → dlSlotCount (some q) = 0) ∧
    (dlSlotCount none = 0) ∧
    (∀ (env : DlEnv) (outputDir : String) (q : Option ℚ) (minS : ℕ)
      (dUE : Bool), dlSlotCount q = 0 →
      downloadImagesWithConcurrency env outputDir q minS dUE = .ok ([], [])) ∧
    (∀ (env : DlEnv) (outputDir : String) (q : Option ℚ) (minS : ℕ)
      (dUE : Bool) (r : List ResultSlot) (f : List ℕ) (i : ℕ),
      downloadImagesWithConcurrency env outputDir q minS dUE = .ok (r, f) →
      i < dlSlotCount q → env.urls.getD i "" = "" →
      r.get? i = some missingUrlSlot) := by
  refine ⟨?_, ?_, ?_, ?_, ?_, ?_⟩
  · intro env outputDir q minS dUE r f h
    simp only [downloadImagesWithConcurrency] at h
    by_cases hc : dlSlotCount q = 0
    · rw [if_pos hc] at h
      obtain ⟨rfl, rfl⟩ := Prod.mk.injEq .. ▸ Except.ok.inj h
      simp [hc]
    · rw [if_neg hc] at h
      have := dlLoop_length env outputDir (dlSlotCount q) _ _ _ _ _ _ _ _ h
      simpa using this
  · intro q; rfl
  · intro q hq
    simp only [dlSlotCount]
    have : ⌊q⌋ ≤ 0 := Int.floor_nonpos hq
    omega
  · rfl
  · intro env outputDir q minS dUE hc
    simp only [downloadImagesWithConcurrency]
    rw [if_pos hc, hc]
    rfl
  · intro env outputDir q minS dUE r f i h hi hurl
    simp only [downloadImagesWithConcurrency] at h
    rw [if_neg (by omega)] at h
    refine dlLoop_missing_url env outputDir (dlSlotCount q) _ i hurl
      _ _ _ _ _ _ _ ?_ h
    rw [List.get?_eq_getElem?, List.getElem?_replicate, if_pos hi]

/-- C10 witness: the theorem at a concrete call — expected count 2 with an
empty URL list yields two `'缺少图片链接'` failure slots (none skipped), and a
non-finite expected count yields the empty array with no download. -/
theorem download_results_length_and_missing_urls_witness :
    (List.get?
      [missingUrlSlot, missingUrlSlot] 0 = some missingUrlSlot) ∧
    downloadImagesWithConcurrency
      ⟨[], fun _ => false, fun _ => false, fun _ => false, fun _ => false⟩
      "out" none 1 true = .ok ([], []) :=
  ⟨by
    have h := download_results_length_and_missing_urls.2.2.2.2.2
      ⟨[], fun _ => false, fun _ => false, fun _ => false, fun _ => false⟩
      "out" (some 2) 1 true [missingUrlSlot, missingUrlSlot] [] 0
      rfl (by decide) rfl
    exact h,
   download_results_length_and_missing_urls.2.2.2.2.1
    ⟨[], fun _ => false, fun _ => false, fun _ => false, fun _ => false⟩
    "out" none 1 true rfl⟩

/-- C6 counterexample: the claim "for every index whose zero-padded target
file already exists on disk, the worker marks that slot successful with the
existing path" is false: with expected count 1, no URL for index 0, and the
target file `out/001.png` present on disk, the slot is marked as the
failure `'缺少图片链接'` (the missing-URL check precedes the existing-file
check), not as a success. -/
theorem download_skip_existing_counterexample :
    downloadImagesWithConcurrency
      ⟨[], fun _ => true, fun _ => false, fun _ => false, fun _ => false⟩
      "out" (some 1) 1 true = .ok ([missingUrlSlot], []) ∧
    DlEnv.fileExists
      ⟨[], fun _ => true, fun _ => false, fun _ => false, fun _ => false⟩ 0 =
      true ∧
    missingUrlSlot.ok = false ∧ missingUrlSlot.error = "缺少图片链接" :=
  ⟨rfl, rfl, rfl, rfl⟩

/-- C6 (amended): for every index that has a URL and whose target file
already exists, the worker never fetches that index over the network, and
its slot is either untouched (when the pool stopped earlier) or a success
carrying the existing target path; consequently, re-running the stage when
every slot has a URL and every target file exists performs no network
activity at all and — with the runner's default `downloadUntilExpected =
true` and no deadline/abort interruption — reports every slot successful. -/
theorem download_skip_existing_amended :
    (∀ (env : DlEnv) (outputDir : String) (q : Option ℚ) (minS : ℕ)
      (dUE : Bool) (r : List ResultSlot) (f : List ℕ) (i : ℕ),
      downloadImagesWithConcurrency env outputDir q minS dUE = .ok (r, f) →
      i < dlSlotCount q → env.urls.getD i "" ≠ "" → env.fileExists i = true →
      (r.get? i = some missingUrlSlot ∨
        r.get? i = some ⟨true, dlTargetPath outputDir i, ""⟩) ∧ i ∉ f) ∧
    (∀ (env : DlEnv) (outputDir : String) (q : Option ℚ) (minS : ℕ),
      (∀ i, i < dlSlotCount q → env.urls.getD i "" ≠ "") →
      (∀ i, i < dlSlotCount q → env.fileExists i = true) →
      (∀ i, env.deadlineHit i = false) →
      (∀ i, env.abortedAt i = false) →
      ∃ r, downloadImagesWithConcurrency env outputDir q minS true =
          .ok (r, []) ∧
        r.length = dlSlotCount q ∧
        ∀ i, i < dlSlotCount q →
          r.get? i = some ⟨true, dlTargetPath outputDir i, ""⟩) := by
  constructor
  · intro env outputDir q minS dUE r f i h hi hurl hfile
    simp only [downloadImagesWithConcurrency] at h
    rw [if_neg (by omega)] at h
    refine dlLoop_existing_file_no_fetch env outputDir (dlSlotCount q) _ i
      hurl hfile _ _ _ _ _ _ _ ?_ (by simp) h
    left
    rw [List.get?_eq_getElem?, List.getElem?_replicate, if_pos hi]
  · intro env outputDir q minS hurls hfiles hdl hab
    by_cases hc : dlSlotCount q = 0
    · refine ⟨[], ?_, by simp [hc], fun i hi => by omega⟩
      simp only [downloadImagesWithConcurrency]
      rw [if_pos hc, hc]
      rfl
    · obtain ⟨r, heq, hlen, _, hin⟩ := dlLoop_all_existing env outputDir
        (dlSlotCount q) hdl hab (dlSlotCount q) 0 0
        (List.replicate (dlSlotCount q) missingUrlSlot) []
        (fun j _ hj => hurls j hj) (fun j _ hj => hfiles j hj) (by omega)
      refine ⟨r, ?_, by simpa using hlen, ?_⟩
      · simp only [downloadImagesWithConcurrency]
        rw [if_neg hc]
        simpa using heq
      · intro i hi
        exact hin i (Nat.zero_le _) hi (by simpa using hi)

/-- C6 witness (amended theorem): a concrete re-run — 2 slots, both URLs
present, both target files already on disk — performs no network fetch and
reports both slots successful. -/
theorem download_skip_existing_amended_witness :
    ∃ r, downloadImagesWithConcurrency
        ⟨["https://cdn/a.png", "https://cdn/b.png"], fun _ => true,
          fun _ => false, fun _ => false, fun _ => false⟩
        "out" (some 2) 1 true = .ok (r, []) ∧
      r.length = dlSlotCount (some 2) ∧
      ∀ i, i < dlSlotCount (some 2) →
        r.get? i = some ⟨true, dlTargetPath "out" i, ""⟩ :=
  download_skip_existing_amended.2
    ⟨["https://cdn/a.png", "https://cdn/b.png"], fun _ => true,
      fun _ => false, fun _ => false, fun _ => false⟩
    "out" (some 2) 1
    (by
      intro i hi
      have hi2 : i = 0 ∨ i = 1 := by
        have : dlSlotCount (some 2) = 2 := rfl
        omega
      rcases hi2 with rfl | rfl <;> decide)
    (fun i _ => rfl) (fun i => rfl) (fun i => rfl)

/-- Helper: the zero-padded zip target path is never the empty string. -/
theorem zipTargetPath_ne_empty (outputDir : String) (i : ℕ) :
    zipTargetPath outputDir i ≠ "" := by
  intro h
  have hlen := congrArg String.length h
  rw [zipTargetPath, String.length_append, String.length_append] at hlen
  have h4 : String.length ".png" = 4 := rfl
  have h0 : String.length "" = 0 := rfl
  omega

/-- Helper: the zero-padded direct-download target path is never the empty
string. -/
theorem dlTargetPath_ne_empty (outputDir : String) (i : ℕ) :
    dlTargetPath outputDir i ≠ "" := by
  intro h
  have hlen := congrArg String.length h
  rw [dlTargetPath, String.length_append, String.length_append] at hlen
  have h4 : String.length ".png" = 4 := rfl
  have h0 : String.length "" = 0 := rfl
  omega

/-- Helper: every slot the worker loop writes is well-formed. -/
theorem dlLoop_wellFormed (env : DlEnv) (outputDir : String)
    (count stopAt : ℕ) :
    ∀ (fuel index successCount : ℕ) (results : List ResultSlot)
      (fetched : List ℕ) (r : List ResultSlot) (f : List ℕ),
      (∀ s ∈ results, wellFormedSlot s) →
      dlLoop env outputDir count stopAt fuel index successCount results fetched =
        .ok (r, f) →
      ∀ s ∈ r, wellFormedSlot s := by
  intro fuel
  induction fuel with
  | zero =>
    intro index successCount results fetched r f hwf h
    rw [dlLoop] at h
    obtain ⟨rfl, rfl⟩ := Prod.mk.injEq .. ▸ Except.ok.inj h
    exact hwf
  | succ fuel ih =>
    intro index successCount results fetched r f hwf h
    have hsetwf : ∀ v : ResultSlot, wellFormedSlot v →
        ∀ s ∈ results.set index v, wellFormedSlot s := by
      intro v hv s hs
      rcases List.mem_or_eq_of_mem_set hs with hs | rfl
      · exact hwf s hs
      · exact hv
    have hokwf : wellFormedSlot ⟨true, dlTargetPath outputDir index, ""⟩ := by
      constructor
      · intro _
        exact dlTargetPath_ne_empty outputDir index
      · intro hc
        simp at hc
    rw [dlLoop] at h
    split at h
    · cases h; exact hwf
    · split at h
      · cases h
      · split at h
        · cases h; exact hwf
        · split at h
          · cases h; exact hwf
          · split at h
            · exact ih _ _ _ _ _ _ (hsetwf _ (by decide)) h
            · split at h
              · exact ih _ _ _ _ _ _ (hsetwf _ hokwf) h
              · split at h
                · exact ih _ _ _ _ _ _ (hsetwf _ hokwf) h
                · exact ih _ _ _ _ _ _ (hsetwf _ (by decide)) h

/-- Helper: every slot `handleZipDownload` produces is well-formed. -/
theorem handleZipDownload_slots_wellFormed (outputDir : String)
    (entries : List String) (n : ℕ) :
    ∀ s ∈ (handleZipDownload outputDir entries n).slots, wellFormedSlot s := by
  intro s hs
  simp only [handleZipDownload, List.mem_map, List.mem_range] at hs
  obtain ⟨i, _, rfl⟩ := hs
  by_cases hc : (sortedZipImages entries).getD i "" ≠ ""
  · rw [if_pos hc]
    constructor
    · intro _
      exact zipTargetPath_ne_empty outputDir i
    · intro hcontra
      simp at hcontra
  · rw [if_neg hc]
    decide

/-- Helper: an overlay of well-formed slots over a well-formed array is
well-formed. -/
theorem overlayResults_wellFormed (base repl : List ResultSlot)
    (hbase : ∀ s ∈ base, wellFormedSlot s)
    (hrepl : ∀ s ∈ repl, wellFormedSlot s) :
    ∀ s ∈ overlayResults base repl, wellFormedSlot s := by
  intro s hs
  rcases List.mem_append.mp hs with hs | hs
  · exact hrepl s hs
  · exact hbase s (List.drop_subset _ _ hs)

/-- Helper: the results array stays well-formed under every well-formed
download-stage write. -/
theorem runWrites_wellFormed (ws : List DlWrite) :
    ∀ base : List ResultSlot, (∀ s ∈ base, wellFormedSlot s) →
      (∀ w ∈ ws, wellFormedWrite w) →
      ∀ s ∈ ws.foldl applyDlWrite base, wellFormedSlot s := by
  induction ws with
  | nil => intro base hbase _; exact hbase
  | cons w rest ih =>
    intro base hbase hws
    rw [List.foldl_cons]
    refine ih _ ?_ (fun w' hw' => hws w' (List.mem_cons_of_mem _ hw'))
    have hw := hws w (List.mem_cons_self _ _)
    cases w with
    | zipWrite outputDir entries n =>
      exact overlayResults_wellFormed _ _ hbase
        (handleZipDownload_slots_wellFormed outputDir entries n)
    | singleWrite p =>
      refine overlayResults_wellFormed _ _ hbase ?_
      intro s hs
      simp only [List.mem_singleton] at hs
      subst hs
      exact ⟨fun _ => hw, fun hc => by simp at hc⟩
    | directWrite dr =>
      exact overlayResults_wellFormed _ _ hbase hw

/-- C8 counterexample: the claim "no slot remains in its initial '未开始'
state after the run finalizes" is false: the catch-path final report (for a
run that failed before the download stage touched any slot — e.g. a
`generation_stuck` abort, which C3 shows reachable) carries a slot still in
the initial `'未开始'` state. -/
theorem final_slots_no_notstarted_counterexample :
    (runCatchReport (runWrites 1 []) "generation_stuck").results.get? 0 =
      some ⟨false, "", "未开始"⟩ ∧
    ¬ (∀ s ∈ (runCatchReport (runWrites 1 []) "generation_stuck").results,
        s.error ≠ "未开始") := by
  constructor
  · rfl
  · intro h
    exact h ⟨false, "", "未开始"⟩ (by decide) rfl

/-- C8 (amended): after the run finalizes — through the success-path or the
catch-path report — every slot is either a success with a non-empty file
path or a failure with a non-empty reason string, where slots the download
stage never overwrote keep the initial non-empty reason `'未开始'`; the
original claim's stronger "no slot remains `'未开始'`" holds only for
slots the download stage actually wrote.  (Hypotheses: single-file writes
carry the saved download's non-empty path and direct writes carry a
`downloadImagesWithConcurrency` result array — whose slots are proved
well-formed in the last conjunct.) -/
theorem final_slots_wellformed_amended :
    (∀ (n : ℕ) (ws : List DlWrite), (∀ w ∈ ws, wellFormedWrite w) →
      ∀ s ∈ runWrites n ws, wellFormedSlot s) ∧
    (∀ (q : Option ℚ) (n : ℕ) (ws : List DlWrite),
      (∀ w ∈ ws, wellFormedWrite w) →
      ∀ s ∈ (runSuccessReport q (runWrites n ws)).results, wellFormedSlot s) ∧
    (∀ (msg : String) (n : ℕ) (ws : List DlWrite),
      (∀ w ∈ ws, wellFormedWrite w) →
      ∀ s ∈ (runCatchReport (runWrites n ws) msg).results, wellFormedSlot s) ∧
    (∀ (env : DlEnv) (outputDir : String) (q : Option ℚ) (minS : ℕ)
      (dUE : Bool) (r : List ResultSlot) (f : List ℕ),
      downloadImagesWithConcurrency env outputDir q minS dUE = .ok (r, f) →
      ∀ s ∈ r, wellFormedSlot s) := by
  have hinit : ∀ n : ℕ, ∀ s ∈ initResults n, wellFormedSlot s := by
    intro n s hs
    rw [initResults] at hs
    obtain rfl := List.eq_of_mem_replicate hs
    decide
  refine ⟨?_, ?_, ?_, ?_⟩
  · intro n ws hws
    exact runWrites_wellFormed ws (initResults n) (hinit n) hws
  · intro q n ws hws
    exact runWrites_wellFormed ws (initResults n) (hinit n) hws
  · intro msg n ws hws
    exact runWrites_wellFormed ws (initResults n) (hinit n) hws
  · intro env outputDir q minS dUE r f h
    simp only [downloadImagesWithConcurrency] at h
    by_cases hc : dlSlotCount q = 0
    · rw [if_pos hc] at h
      obtain ⟨rfl, rfl⟩ := Prod.mk.injEq .. ▸ Except.ok.inj h
      intro s hs
      obtain rfl := List.eq_of_mem_replicate hs
      decide
    · rw [if_neg hc] at h
      refine dlLoop_wellFormed env outputDir (dlSlotCount q) _ _ _ _ _ _ _ _
        ?_ h
      intro s hs
      obtain rfl := List.eq_of_mem_replicate hs
      decide

/-- C8 witness (amended theorem): a success-path report over a concrete
2-slot run where a direct download filled slot 0 — every slot of the report
is well-formed (slot 1 keeps the non-empty initial reason `'未开始'`). -/
theorem final_slots_wellformed_amended_witness :
    wellFormedSlot ⟨false, "", "未开始"⟩ :=
  final_slots_wellformed_amended.2.1 (some ((2 : ℕ) : ℚ)) 2
    [DlWrite.directWrite [⟨true, "out/001.png", ""⟩]]
    (by
      intro w hw
      simp only [List.mem_singleton] at hw
      subst hw
      intro s hs
      simp only [List.mem_singleton] at hs
      subst hs
      exact ⟨fun _ => by decide, fun hc => by simp at hc⟩)
    ⟨false, "", "未开始"⟩ (by decide)

/-- C3 witness: the theorem at a concrete stalled trace — zero images since
t = 1000, `zeroImageAbortMs` = 300000, retries exhausted, poll at clock
400000 while the deadline is far away — yields `generation_stuck`. -/
theorem zero_progress_stuck_abort_witness :
    waitForCountWithRetry 300000 60000 1 1000000000
      [⟨400000, false, false, 0, 401000, true⟩] (some 1000) 1 (false, 0) =
      CountOutcome.stuck :=
  zero_progress_stuck_abort.1 300000 60000 1 1000000000 1000
    ⟨400000, false, false, 0, 401000, true⟩ [] 1 (false, 0)
    (by decide) rfl rfl rfl (by decide) (by decide) (by decide)

end Lovart
